import Mathlib

/-!
Verification of the anchored panel-cropping heuristic of
`src/app/services/anchored_pdf_cropper/service.py` (class
`AnchoredPdfCropperService`).

The embedding is a direct translation of the Python source into Lean:

* OCR tokens (the parallel arrays of `pytesseract.image_to_data`) become a
  list of `OcrWord` records; one OCR invocation is an
  `Except Unit (List OcrWord)` — `.error ()` models the OCR engine raising,
  `.ok []` models zero recognized words.
* Python integers are modelled by `Nat` (all the quantities involved — pixel
  coordinates, widths, heights — are non-negative in the source).  Where the
  Python subtraction of two ints can go negative, the comparison is written
  additively (`bottom < top + minH` for Python `bottom - top < min_h`) and
  `max 0 (a - b)` keeps the shape of the source (on `Nat` the truncated
  subtraction agrees with the Python expression `max(0, a - b)`).
* `int(c * dim)` for a non-negative float constant `c` is read as the exact
  rational floor, e.g. `int(0.22 * w)` becomes `(22 * w) / 100` with `Nat`
  division.  (IEEE-754 rounding of the float product can differ from the
  exact floor by one pixel for isolated dimensions; both the spec and the
  code denote the same expressions, so the ideal-arithmetic reading is used
  uniformly.)
* `difflib.SequenceMatcher(a=t, b=kk).ratio()` is translated operation by
  operation: `b2j` index lists, the `find_longest_match` dynamic program
  with its tie-breaks, the non-junk extension loops, the recursive
  matching-blocks decomposition, and the threshold test
  `min_ratio <= 2*M/(len(a)+len(b))` as an exact integer comparison cleared
  of its positive denominator.  Junk handling is omitted: with `isjunk=None`
  and the second
  string shorter than 200 characters (every keyword here) `difflib` has no
  junk, so every junk test in the source is constantly false.
-/

namespace AnchoredPdfCropperService

/-- Axis-aligned rectangle `(x1, y1, x2, y2)` in page-pixel coordinates, the
`Tuple[int, int, int, int]` boxes of the source. -/
structure BBox where
  x1 : Nat
  y1 : Nat
  x2 : Nat
  y2 : Nat
deriving DecidableEq

/-- One OCR token of `pytesseract.image_to_data`: `data["text"][i]`,
`data["left"][i]`, `data["top"][i]`, `data["width"][i]`,
`data["height"][i]`. -/
structure OcrWord where
  text : String
  left : Nat
  top : Nat
  width : Nat
  height : Nat
deriving DecidableEq

/-- One page as `crop_pdfs` sees it: its rendered size and the outcome of
running the OCR engine on it (`.error ()` = `pytesseract` raised). -/
structure Page where
  w : Nat
  h : Nat
  ocr : Except Unit (List OcrWord)

/-- Characters removed by Python `str.strip()` — the ASCII whitespace set
(space, tab, newline, carriage return, vertical tab, form feed). -/
def isPyWhite (c : Char) : Bool :=
  decide (c.toNat = 32 ∨ c.toNat = 9 ∨ c.toNat = 10 ∨ c.toNat = 13 ∨
          c.toNat = 11 ∨ c.toNat = 12)

/-- Python `s.strip()`: drop leading and trailing whitespace. -/
def pyStrip (l : List Char) : List Char :=
  ((l.dropWhile isPyWhite).reverse.dropWhile isPyWhite).reverse

/-- Python `str.lower()` restricted to the ASCII range (the only characters
that survive the filter of the normalizer are ASCII). -/
def pyLowerChar (c : Char) : Char :=
  if 65 ≤ c.toNat ∧ c.toNat ≤ 90 then Char.ofNat (c.toNat + 32) else c

/-- Membership in the character class `[a-z0-9 ]` of the regex in
`_normalize`: kept characters are lowercase ASCII letters, digits and the
space. -/
def isKeptChar (c : Char) : Bool :=
  decide ((97 ≤ c.toNat ∧ c.toNat ≤ 122) ∨ (48 ≤ c.toNat ∧ c.toNat ≤ 57) ∨
          c.toNat = 32)

/-- `_normalize` on a character list:
`re.sub(r"[^a-z0-9 ]+", "", s.lower()).strip()` — lowercase, remove every
character outside `[a-z0-9 ]`, strip. -/
def normChars (l : List Char) : List Char :=
  pyStrip ((l.map pyLowerChar).filter isKeptChar)

/-- `AnchoredPdfCropperService._normalize` (the result as a character
list). -/
def pyNormalize (s : String) : List Char :=
  normChars s.data

/-- The ascending list of positions of `c` in `b`: the table `b2j[c]` of `difflib`. -/
def b2jPos (b : List Char) (c : Char) : List Nat :=
  (List.range b.length).filter (fun j => decide (b.get? j = some c))

/-- One iteration (one `i`) of the `find_longest_match` dynamic program:
folds over the positions `j` of `a[i]` in `b` restricted to `[blo, bhi)`,
building the new `j2len` table from the previous one and improving
`(besti, bestj, bestsize)` exactly when the new run is strictly longer. -/
def flmStep (a b : List Char) (blo bhi : Nat)
    (st : List (Nat × Nat) × (Nat × Nat × Nat)) (i : Nat) :
    List (Nat × Nat) × (Nat × Nat × Nat) :=
  let old := st.1
  let js := (b2jPos b (a.getD i (Char.ofNat 0))).filter
      (fun j => decide (blo ≤ j ∧ j < bhi))
  js.foldl (fun st2 j =>
    let k := (if j = 0 then 0 else ((old.lookup (j - 1)).getD 0)) + 1
    let best := st2.2
    let best := if best.2.2 < k then (i + 1 - k, j + 1 - k, k) else best
    ((j, k) :: st2.1, best)) ([], st.2)

/-- The dynamic-programming core of `SequenceMatcher.find_longest_match` on
`a[alo:ahi]` and `b[blo:bhi]` (no junk). -/
def findLongestMatchCore (a b : List Char) (alo ahi blo bhi : Nat) :
    Nat × Nat × Nat :=
  ((List.range' alo (ahi - alo)).foldl (flmStep a b blo bhi)
    ([], (alo, blo, 0))).2

/-- The left extension loop of `find_longest_match` ("extend the best by
non-junk elements on each end"); with no junk the junk-extension loops of
the source are constantly skipped. -/
def extendLeft (a b : List Char) (alo blo : Nat) :
    Nat → Nat × Nat × Nat → Nat × Nat × Nat
  | 0, st => st
  | fuel + 1, (bi, bj, bs) =>
    if alo < bi ∧ blo < bj ∧ a.get? (bi - 1) ≠ none ∧
        a.get? (bi - 1) = b.get? (bj - 1) then
      extendLeft a b alo blo fuel (bi - 1, bj - 1, bs + 1)
    else (bi, bj, bs)

/-- The right extension loop of `find_longest_match`. -/
def extendRight (a b : List Char) (ahi bhi : Nat) :
    Nat → Nat × Nat × Nat → Nat × Nat × Nat
  | 0, st => st
  | fuel + 1, (bi, bj, bs) =>
    if bi + bs < ahi ∧ bj + bs < bhi ∧ a.get? (bi + bs) ≠ none ∧
        a.get? (bi + bs) = b.get? (bj + bs) then
      extendRight a b ahi bhi fuel (bi, bj, bs + 1)
    else (bi, bj, bs)

/-- `SequenceMatcher.find_longest_match(alo, ahi, blo, bhi)` with
`isjunk=None` and no autojunk. -/
def findLongestMatch (a b : List Char) (alo ahi blo bhi : Nat) :
    Nat × Nat × Nat :=
  let st := findLongestMatchCore a b alo ahi blo bhi
  let st := extendLeft a b alo blo st.1 st
  extendRight a b ahi bhi ahi st

/-- Total size of the matching blocks of `a[alo:ahi]` and `b[blo:bhi]`: the
recursive decomposition of `get_matching_blocks` (longest block, then the
regions to its left and right).  The fuel strictly exceeds any possible
recursion depth. -/
def matchingTotalAux : Nat → List Char → List Char → Nat → Nat → Nat → Nat → Nat
  | 0, _, _, _, _, _, _ => 0
  | fuel + 1, a, b, alo, ahi, blo, bhi =>
    let m := findLongestMatch a b alo ahi blo bhi
    if m.2.2 = 0 then 0
    else
      m.2.2 + matchingTotalAux fuel a b alo m.1 blo m.2.1 +
        matchingTotalAux fuel a b (m.1 + m.2.2) ahi (m.2.1 + m.2.2) bhi

/-- `M = sum(size for _, _, size in get_matching_blocks())`. -/
def matchingTotal (a b : List Char) : Nat :=
  matchingTotalAux (a.length + b.length + 1) a b 0 a.length 0 b.length

/-- The acceptance test `r >= min_ratio` of `_fuzzy_match`, where
`r = SequenceMatcher(a=t, b=kk).ratio() = 2*M / (len(t)+len(kk))` and the
threshold is the exact fraction `minNum / minDen` (the default
`min_ratio = 0.75` is exactly `3/4`): the comparison is cleared of the
positive denominator `len(t)+len(kk)`, i.e.
`minNum * (len(t)+len(kk)) ≤ minDen * 2*M`.  (Both strings are non-empty
whenever this is evaluated, so the denominator is positive; the rational
comparison agrees with the float comparison of the source because the gap
between `2*M/(la+lb)` and `minNum/minDen`, when non-zero, far exceeds the
rounding error of one float division.) -/
def ratioGe (minNum : Int) (minDen m lab : Nat) : Bool :=
  decide (minNum * lab ≤ (minDen : Int) * (2 * m))

/-- `AnchoredPdfCropperService._fuzzy_match(txt, keywords, min_ratio)` with
`min_ratio = minNum / minDen`: normalize the text (empty ⇒ no match); a
keyword matches when its normalization is non-empty and either the
similarity ratio reaches `min_ratio` or the normalized keyword is a
substring of the normalized text. -/
def fuzzyMatch (txt : List Char) (keywords : List (List Char))
    (minNum : Int) (minDen : Nat) : Bool :=
  let t := normChars txt
  if t.isEmpty then false
  else keywords.any (fun k =>
    let kk := normChars k
    if kk.isEmpty then false
    else
      ratioGe minNum minDen (matchingTotal t kk) (t.length + kk.length) ||
        decide (kk <:+: t))

/-- The keyword list of `_find_mailto_block`. -/
def mailtoKeys : List (List Char) :=
  ["mail to".data, "lancaster".data, "mailbox markets".data, "po box".data,
   "lancaster, pa".data]

/-- The apostrophe character (written by code point). -/
def apostrophe : Char := Char.ofNat 39

/-- The keyword list of `_find_header_top`. -/
def headerKeys : List (List Char) :=
  ["account".data, "name".data, "address".data,
   ("if you don".data ++ [apostrophe] ++ "t know".data),
   "if you dont know".data, "check one".data, "for sale".data,
   "notice".data, "wanted".data]

/-- `AnchoredPdfCropperService._find_header_top`: on an OCR failure the
`try`/`except` of the source returns `None`; with zero tokens it returns `None`;
otherwise it collects `top` of every token whose stripped, lowercased text
contains a header keyword and returns `max(0, min(ys) - int(0.01*h))`. -/
def findHeaderTop (ocr : Except Unit (List OcrWord)) (h : Nat) : Option Nat :=
  match ocr with
  | .error _ => none
  | .ok words =>
    if words.isEmpty then none
    else
      let ys := words.filterMap (fun wd =>
        let txt := (pyStrip wd.text.data).map pyLowerChar
        if txt.isEmpty then none
        else if headerKeys.any (fun k => decide (k <:+: txt)) then some wd.top
        else none)
      match ys with
      | [] => none
      | y :: rest => some (max 0 ((rest.foldl min y) - (1 * h) / 100))

/-- The per-token test of `_find_mailto_block`: skip empty text, skip tokens
above `min_y = int(0.5*h)`, keep the box `(x, y, x+bw, y+bh)` of every token
that fuzzy-matches the mail-to keywords. -/
def mailtoWordBox (h : Nat) (wd : OcrWord) : Option BBox :=
  let txt := pyStrip wd.text.data
  if txt.isEmpty then none
  else if wd.top < (5 * h) / 10 then none
  else if fuzzyMatch txt mailtoKeys 3 4 then
    some (BBox.mk wd.left wd.top (wd.left + wd.width) (wd.top + wd.height))
  else none

/-- `AnchoredPdfCropperService._find_mailto_block`: on an OCR failure the
`try`/`except` returns `None`; with zero tokens it returns `None`; otherwise
the envelope of all matched boxes is expanded by the fixed paddings and a
minimum height of `int(0.10*h)` is enforced by extending `bottom` (the
comparison `bottom - top < min_h` over the Python ints is written additively
as `bottom < top + min_h`). -/
def findMailtoBlock (ocr : Except Unit (List OcrWord)) (w h : Nat) :
    Option BBox :=
  match ocr with
  | .error _ => none
  | .ok words =>
    if words.isEmpty then none
    else
      match words.filterMap (mailtoWordBox h) with
      | [] => none
      | b :: bs =>
        let left := max ((45 * w) / 100)
          ((bs.foldl (fun m x => min m x.x1) b.x1) - (2 * w) / 100)
        let top := max 0
          ((bs.foldl (fun m x => min m x.y1) b.y1) - (1 * h) / 100)
        let right := min w
          ((bs.foldl (fun m x => max m x.x2) b.x2) + (6 * w) / 100)
        let bottom := min h
          ((bs.foldl (fun m x => max m x.y2) b.y2) + (3 * h) / 100)
        if bottom < top + (10 * h) / 100 then
          some (BBox.mk left top right (min h (top + (10 * h) / 100)))
        else some (BBox.mk left top right bottom)

/-- The primary-path crop-box computation of `crop_pdfs` (its body for
`mailto_box is not None`, lines 358–380), as a function of the mail-to box,
the header top (`None` replaced by `header_cap`) and the page size.  The
comparison `bottom - top < min_h` is written additively. -/
def cropFromMailto (mb : BBox) (headerTop : Option Nat) (w h : Nat) : BBox :=
  let left := max ((22 * w) / 100) (mb.x1 - (30 * w) / 100)
  let right := min w (max (mb.x2 + (10 * w) / 100) ((965 * w) / 1000))
  let bottom := min h (mb.y2 + (4 * h) / 1000)
  let headerCap := (14 * h) / 100
  let ht := match headerTop with
    | none => headerCap
    | some t => t
  let topTarget := min ht headerCap
  let targetH := (64 * h) / 100
  let minH := (58 * h) / 100
  let topFromHeight := max 0 (bottom - targetH)
  let top := max 0 (min topTarget topFromHeight)
  let top := if bottom < top + minH then max 0 (bottom - minH) else top
  BBox.mk left top right bottom

/-- The crop box `crop_pdfs` computes for one page: the primary path when
`_find_mailto_block` found a box (with the header top from
`_find_header_top`), the fixed fallback box
`(int(0.25*w), int(0.12*h), w, int(0.92*h))` otherwise.  This box is handed
to `pil_img.crop` unchanged — the source performs no validity check on it. -/
def cropBoxForPage (ocr : Except Unit (List OcrWord)) (w h : Nat) : BBox :=
  match findMailtoBlock ocr w h with
  | some mb => cropFromMailto mb (findHeaderTop ocr h) w h
  | none => BBox.mk ((25 * w) / 100) ((12 * h) / 100) w ((92 * h) / 100)

/-- The crop box used for one `Page` of the batch loop of `crop_pdfs`. -/
def pageBox (p : Page) : BBox :=
  cropBoxForPage p.ocr p.w p.h

/-- The boxes `crop_pdfs` crops with, page by page: the box of each page depends
on that page alone. -/
def processPages (ps : List Page) : List BBox :=
  ps.map pageBox

/-- Every word box of an OCR result lies inside the `w × h` page. -/
def ocrInPage (ocr : Except Unit (List OcrWord)) (w h : Nat) : Bool :=
  match ocr with
  | .error _ => true
  | .ok words =>
    words.all (fun wd =>
      decide (wd.left + wd.width ≤ w ∧ wd.top + wd.height ≤ h))

/-- The primary-path panel box exactly as the bullet formulas of the spec in
§4.4 state it (claim C3): `left = max(22% W, mx1 - 30% W)`,
`right = min(W, max(mx2 + 10% W, 96.5% W))`, `bottom = min(H, my2 + 0.4% H)`,
`top_target = min(header_top or header_cap, header_cap)` with
`header_cap = 14% H` (the `or` read as defaulting a missing header top, as
the `is None` check of the source does), `top_from_height = max(0, bottom - 64% H)`,
`top = max(0, min(top_target, top_from_height))`, and if the height is below
`58% H`, `top = max(0, bottom - 58% H)`.  Integer comparisons are over the
integers, so `bottom - top < 58% H` is `bottom < top + 58% H`. -/
def specPanelBox (mx1 _my1 mx2 my2 : Nat) (headerTop : Option Nat)
    (w h : Nat) : BBox :=
  let left := max ((22 * w) / 100) (mx1 - (30 * w) / 100)
  let right := min w (max (mx2 + (10 * w) / 100) ((965 * w) / 1000))
  let bottom := min h (my2 + (4 * h) / 1000)
  let topTarget := min (headerTop.getD ((14 * h) / 100)) ((14 * h) / 100)
  let topFromHeight := max 0 (bottom - (64 * h) / 100)
  let top := max 0 (min topTarget topFromHeight)
  if bottom < top + (58 * h) / 100 then
    BBox.mk left (max 0 (bottom - (58 * h) / 100)) right bottom
  else BBox.mk left top right bottom

/-- The mail-to envelope exactly as §4.3 of the spec and claim C4 state it:
consider only words with `top ≥ 50% H`, keep those that fuzzy-match the
mail-to keyword set at `min_ratio = 0.75`, return `None` when none match,
otherwise expand the envelope of the matched boxes and extend `bottom` to a
minimum height of `10% H` (the height comparison over the integers, written
additively). -/
def specMailtoEnvelope (words : List OcrWord) (w h : Nat) : Option BBox :=
  let matched := words.filter (fun wd =>
    decide ((5 * h) / 10 ≤ wd.top) &&
      fuzzyMatch (pyStrip wd.text.data) mailtoKeys 3 4)
  match matched.map (fun wd =>
      BBox.mk wd.left wd.top (wd.left + wd.width) (wd.top + wd.height)) with
  | [] => none
  | b :: bs =>
    let left := max ((45 * w) / 100)
      ((bs.foldl (fun m x => min m x.x1) b.x1) - (2 * w) / 100)
    let top := max 0
      ((bs.foldl (fun m x => min m x.y1) b.y1) - (1 * h) / 100)
    let right := min w
      ((bs.foldl (fun m x => max m x.x2) b.x2) + (6 * w) / 100)
    let bottom := min h
      ((bs.foldl (fun m x => max m x.y2) b.y2) + (3 * h) / 100)
    if bottom < top + (10 * h) / 100 then
      some (BBox.mk left top right (min h (top + (10 * h) / 100)))
    else some (BBox.mk left top right bottom)

end AnchoredPdfCropperService

namespace AnchoredPdfCropperService

/-- Folding `min` over mapped values never exceeds the initial value. -/
theorem foldl_min_le_init {α : Type} (f : α → Nat) :
    ∀ (l : List α) (a : Nat), l.foldl (fun m x => min m (f x)) a ≤ a
  | [], a => Nat.le_refl a
  | x :: xs, a =>
    Nat.le_trans (foldl_min_le_init f xs (min a (f x))) (Nat.min_le_left _ _)

/-- A common lower bound of the initial value and all mapped values bounds
the `min` fold. -/
theorem le_foldl_min {α : Type} (f : α → Nat) :
    ∀ (l : List α) (a c : Nat), c ≤ a → (∀ x ∈ l, c ≤ f x) →
      c ≤ l.foldl (fun m x => min m (f x)) a
  | [], _, _, h1, _ => h1
  | x :: xs, a, c, h1, h2 =>
    le_foldl_min f xs (min a (f x)) c
      (Nat.le_min.mpr ⟨h1, h2 x (by simp)⟩)
      (fun y hy => h2 y (by simp [hy]))

/-- The `max` fold is at least its initial value. -/
theorem le_foldl_max {α : Type} (f : α → Nat) :
    ∀ (l : List α) (a : Nat), a ≤ l.foldl (fun m x => max m (f x)) a
  | [], a => Nat.le_refl a
  | x :: xs, a =>
    Nat.le_trans (Nat.le_max_left _ (f x)) (le_foldl_max f xs (max a (f x)))

/-- A common upper bound of the initial value and all mapped values bounds
the `max` fold. -/
theorem foldl_max_le {α : Type} (f : α → Nat) :
    ∀ (l : List α) (a c : Nat), a ≤ c → (∀ x ∈ l, f x ≤ c) →
      l.foldl (fun m x => max m (f x)) a ≤ c
  | [], _, _, h1, _ => h1
  | x :: xs, a, c, h1, h2 =>
    foldl_max_le f xs (max a (f x)) c
      (Nat.max_le.mpr ⟨h1, h2 x (by simp)⟩)
      (fun y hy => h2 y (by simp [hy]))

/-- `_fuzzy_match` of an empty text is `False`. -/
theorem fuzzyMatch_nil (ks : List (List Char)) (n : Int) (d : Nat) :
    fuzzyMatch [] ks n d = false := rfl

/-- What `mailtoWordBox` returning a box says about the token. -/
theorem mailtoWordBox_eq_some {h : Nat} {wd : OcrWord} {p : BBox}
    (hp : mailtoWordBox h wd = some p) :
    (5 * h) / 10 ≤ wd.top ∧
      p = BBox.mk wd.left wd.top (wd.left + wd.width) (wd.top + wd.height) := by
  simp only [mailtoWordBox] at hp
  split_ifs at hp with h1 h2 h3
  injection hp with hp2
  exact ⟨by omega, hp2.symm⟩

end AnchoredPdfCropperService

namespace AnchoredPdfCropperService

/-- Members of `dropWhile` are members of the list. -/
theorem mem_of_mem_dropWhile {p : Char → Bool} {l : List Char} {c : Char}
    (h : c ∈ l.dropWhile p) : c ∈ l :=
  (List.dropWhile_sublist p).subset h

/-- Members of the stripped list are members of the list. -/
theorem mem_of_mem_pyStrip {l : List Char} {c : Char}
    (h : c ∈ pyStrip l) : c ∈ l := by
  unfold pyStrip at h
  rw [List.mem_reverse] at h
  have h2 := mem_of_mem_dropWhile h
  rw [List.mem_reverse] at h2
  exact mem_of_mem_dropWhile h2

/-- Every character of a normalized string is in the kept class. -/
theorem kept_of_mem_normChars {l : List Char} {c : Char}
    (h : c ∈ normChars l) : isKeptChar c = true :=
  List.of_mem_filter (mem_of_mem_pyStrip h)

/-- Lowercasing fixes every kept character. -/
theorem pyLowerChar_kept {c : Char} (h : isKeptChar c = true) :
    pyLowerChar c = c := by
  simp only [isKeptChar, decide_eq_true_eq] at h
  unfold pyLowerChar
  rw [if_neg]
  omega

/-- A map that fixes every member fixes the list. -/
theorem map_id_of_forall {f : Char → Char} :
    ∀ {l : List Char}, (∀ c ∈ l, f c = c) → l.map f = l
  | [], _ => rfl
  | a :: as, h => by
    rw [List.map_cons, h a (by simp), map_id_of_forall (fun c hc => h c (by simp [hc]))]

/-- `dropWhile` is idempotent. -/
theorem dropWhile_idem (p : Char → Bool) :
    ∀ l : List Char, (l.dropWhile p).dropWhile p = l.dropWhile p
  | [] => rfl
  | a :: as => by
    rw [List.dropWhile_cons]
    by_cases hp : p a
    · rw [if_pos hp]
      exact dropWhile_idem p as
    · rw [if_neg hp, List.dropWhile_cons, if_neg hp]

/-- The head of a non-empty `dropWhile` result fails the predicate. -/
theorem dropWhile_head_false {p : Char → Bool} :
    ∀ {l : List Char} {c : Char} {cs : List Char},
      l.dropWhile p = c :: cs → p c = false
  | [], _, _, h => by simp at h
  | a :: as, c, cs, h => by
    rw [List.dropWhile_cons] at h
    by_cases hp : p a
    · rw [if_pos hp] at h
      exact dropWhile_head_false h
    · rw [if_neg hp] at h
      injection h with h1 _
      subst h1
      exact Bool.eq_false_iff.mpr hp

/-- A non-trivial `dropWhile` keeps the last element. -/
theorem getLast?_dropWhile {p : Char → Bool} :
    ∀ {l : List Char}, l.dropWhile p ≠ [] →
      (l.dropWhile p).getLast? = l.getLast?
  | [], h => by simp at h
  | a :: as, h => by
    rw [List.dropWhile_cons]
    by_cases hp : p a
    · rw [List.dropWhile_cons, if_pos hp] at h
      rw [if_pos hp, getLast?_dropWhile h]
      cases as with
      | nil => simp [List.dropWhile_nil] at h
      | cons b bs => exact (List.getLast?_cons_cons).symm
    · rw [if_neg hp]

/-- Stripping is idempotent. -/
theorem pyStrip_idem (l : List Char) : pyStrip (pyStrip l) = pyStrip l := by
  unfold pyStrip
  have hinner :
      (((l.dropWhile isPyWhite).reverse.dropWhile isPyWhite).reverse).dropWhile
          isPyWhite =
        ((l.dropWhile isPyWhite).reverse.dropWhile isPyWhite).reverse := by
    cases hB :
        ((l.dropWhile isPyWhite).reverse.dropWhile isPyWhite).reverse with
    | nil => simp [hB]
    | cons c cs =>
      have hBne : (l.dropWhile isPyWhite).reverse.dropWhile isPyWhite ≠ [] := by
        intro hb
        rw [hb] at hB
        exact List.noConfusion hB
      have hc :
          ((l.dropWhile isPyWhite).reverse.dropWhile isPyWhite).getLast? =
            some c := by
        have := List.head?_reverse
          ((l.dropWhile isPyWhite).reverse.dropWhile isPyWhite)
        rw [hB] at this
        exact this.symm
      rw [getLast?_dropWhile hBne, List.getLast?_reverse] at hc
      cases hA : l.dropWhile isPyWhite with
      | nil => rw [hA] at hc; exact absurd hc (by simp)
      | cons a0 as0 =>
        rw [hA] at hc
        have ha0 : a0 = c := by
          simp only [List.head?_cons, Option.some.injEq] at hc
          exact hc
        rw [List.dropWhile_cons,
          if_neg (by rw [← ha0]; simp [dropWhile_head_false hA])]
  rw [hinner, List.reverse_reverse, dropWhile_idem]

/-- Normalization is idempotent on character lists. -/
theorem normChars_idem (l : List Char) :
    normChars (normChars l) = normChars l := by
  have hkept : ∀ c ∈ normChars l, isKeptChar c = true :=
    fun c hc => kept_of_mem_normChars hc
  have hmap : (normChars l).map pyLowerChar = normChars l :=
    map_id_of_forall (fun c hc => pyLowerChar_kept (hkept c hc))
  have hfilter : (normChars l).filter isKeptChar = normChars l :=
    List.filter_eq_self.mpr hkept
  show pyStrip (((normChars l).map pyLowerChar).filter isKeptChar) = normChars l
  rw [hmap, hfilter]
  show pyStrip (pyStrip ((l.map pyLowerChar).filter isKeptChar)) = normChars l
  rw [pyStrip_idem]
  rfl

/-- Claim C10: for every string `s`,
`_normalize(_normalize(s)) == _normalize(s)` — the text normalizer is
idempotent. -/
theorem normalize_idempotent (s : String) :
    pyNormalize (String.mk (pyNormalize s)) = pyNormalize s :=
  normChars_idem s.data

end AnchoredPdfCropperService

namespace AnchoredPdfCropperService

/-- Claim C6: with zero OCR words, `_find_mailto_block` returns `None` and
`crop_pdfs` selects exactly the fallback box
`(int(0.25*W), int(0.12*H), W, int(0.92*H))`. -/
theorem empty_ocr_fallback_box (w h : Nat) :
    findMailtoBlock (Except.ok []) w h = none ∧
      cropBoxForPage (Except.ok []) w h =
        BBox.mk ((25 * w) / 100) ((12 * h) / 100) w ((92 * h) / 100) :=
  ⟨rfl, rfl⟩

/-- Claim C9 (amended): `_fuzzy_match(text, {kw})` is true whenever
`normalize(kw)` is a **non-empty** literal substring of `normalize(text)`,
regardless of the similarity-ratio threshold. -/
theorem substring_implies_fuzzy_match (txt kw : List Char) (minNum : Int)
    (minDen : Nat) (hne : normChars kw ≠ [])
    (hsub : normChars kw <:+: normChars txt) :
    fuzzyMatch txt [kw] minNum minDen = true := by
  have htne : normChars txt ≠ [] := by
    intro h0
    rw [h0, List.infix_nil] at hsub
    exact hne hsub
  simp only [fuzzyMatch, List.any_cons, List.any_nil, Bool.or_false]
  rw [if_neg (by simpa [List.isEmpty_iff] using htne),
    if_neg (by simpa [List.isEmpty_iff] using hne),
    decide_eq_true hsub]
  simp

/-- Witness for C9: at `text = "Mail To:"`, `kw = "mail to"` and the
(unreachably high) threshold `2 = 2/1`, the substring branch alone makes the
match succeed. -/
theorem substring_implies_fuzzy_match_witness :
    normChars "mail to".data ≠ [] ∧
      normChars "mail to".data <:+: normChars "Mail To:".data ∧
      fuzzyMatch "Mail To:".data ["mail to".data] 2 1 = true :=
  ⟨by decide, by decide,
    substring_implies_fuzzy_match "Mail To:".data "mail to".data 2 1
      (by decide) (by decide)⟩

/-- Counterexample for C9 as stated: for `kw = "!"` the normalized keyword
is the empty string, which is a literal substring of `normalize("abc")`,
yet `_fuzzy_match` skips empty normalized keywords and returns `False`. -/
theorem empty_keyword_substring_cex :
    normChars "!".data <:+: normChars "abc".data ∧
      fuzzyMatch "abc".data ["!".data] 3 4 = false := by decide

/-- Claim C5 (amended): on the synthetic word `"Mail to"` at
`(500, 800, 600, 820)` on a `1000 × 1200` page, the mail-to envelope is
`(480, 788, 660, 908)`: its left edge satisfies `left ≥ 450` (the `45% W`
expansion is a lower bound, `left = max(45% W, min(xs) - 2% W) = 480`), and
`bottom - top = 120 ≥ 10%` of the page height. -/
theorem synthetic_mailto_envelope_bounds :
    findMailtoBlock (Except.ok [⟨"Mail to", 500, 800, 100, 20⟩]) 1000 1200 =
        some (BBox.mk 480 788 660 908) ∧
      450 ≤ 480 ∧ 120 ≤ 908 - 788 := by decide

/-- Counterexample for C5 as stated: the same synthetic input yields
`left = 480`, so the claimed `left ≤ 450` is false. -/
theorem synthetic_mailto_left_cex :
    findMailtoBlock (Except.ok [⟨"Mail to", 500, 800, 100, 20⟩]) 1000 1200 =
        some (BBox.mk 480 788 660 908) ∧
      ¬((480 : Nat) ≤ 450) := by decide

/-- Claim C2 (amended): on the primary path the crop height
`bottom - top` is always at least `min(bottom, 58% H)` where
`bottom = min(H, my2 + 0.4% H)`; the claimed `58% H` floor therefore holds
exactly when `bottom` itself reaches `58% H`, and for a mail-to box whose
bottom edge sits low enough that `min(H, my2 + 0.4% H) < 58% H` the final
height is `bottom`, below the claimed floor. -/
theorem crop_height_floor_min (mb : BBox) (ht : Option Nat) (w h : Nat) :
    min (cropFromMailto mb ht w h).y2 ((58 * h) / 100) ≤
      (cropFromMailto mb ht w h).y2 - (cropFromMailto mb ht w h).y1 := by
  cases ht <;> simp only [cropFromMailto] <;> split_ifs <;> simp <;> omega

/-- Counterexample for C2 as stated: the mail-to box `(100, 0, 200, 1)` is
valid (`x1 < x2`, `y1 < y2`, clamped to the `1000 × 1000` page), yet the
primary-path crop box is `(220, 0, 965, 5)` with height `5`, far below the
`58%` floor of `580`. -/
theorem crop_height_floor_cex :
    cropFromMailto (BBox.mk 100 0 200 1) none 1000 1000 = BBox.mk 220 0 965 5 ∧
      100 < 200 ∧ 0 < 1 ∧ 200 ≤ 1000 ∧ 1 ≤ 1000 ∧
      ¬((58 * 1000) / 100 ≤ 5 - 0) := by decide

/-- Claim C3: whenever a mail-to box is found, the crop box `crop_pdfs`
computes is exactly the §4.4 primary-path formula of the spec evaluated at that
box, the detected header top and the page size. -/
theorem primary_crop_matches_spec_formula (ocr : Except Unit (List OcrWord))
    (w h : Nat) (mb : BBox) (hm : findMailtoBlock ocr w h = some mb) :
    cropBoxForPage ocr w h =
      specPanelBox mb.x1 mb.y1 mb.x2 mb.y2 (findHeaderTop ocr h) w h := by
  unfold cropBoxForPage
  rw [hm]
  cases hht : findHeaderTop ocr h <;>
    simp only [cropFromMailto, specPanelBox, Option.getD] <;>
    split_ifs <;> rfl

/-- Witness for C3 at the synthetic one-word page. -/
theorem primary_crop_matches_spec_formula_witness :
    findMailtoBlock (Except.ok [⟨"Mail to", 500, 800, 100, 20⟩]) 1000 1200 =
        some (BBox.mk 480 788 660 908) ∧
      cropBoxForPage (Except.ok [⟨"Mail to", 500, 800, 100, 20⟩]) 1000 1200 =
        specPanelBox 480 788 660 908
          (findHeaderTop (Except.ok [⟨"Mail to", 500, 800, 100, 20⟩]) 1200)
          1000 1200 :=
  ⟨by decide,
    primary_crop_matches_spec_formula
      (Except.ok [⟨"Mail to", 500, 800, 100, 20⟩]) 1000 1200
      (BBox.mk 480 788 660 908) (by decide)⟩

end AnchoredPdfCropperService

namespace AnchoredPdfCropperService

/-- `mailtoWordBox` as a single guarded box: the skip in the source of
empty-after-strip tokens is absorbed into the fuzzy match, which is `False`
on any text whose normalization is empty. -/
theorem mailtoWordBox_eq_ite (h : Nat) (wd : OcrWord) :
    mailtoWordBox h wd =
      if (decide ((5 * h) / 10 ≤ wd.top) &&
          fuzzyMatch (pyStrip wd.text.data) mailtoKeys 3 4) = true then
        some (BBox.mk wd.left wd.top (wd.left + wd.width) (wd.top + wd.height))
      else none := by
  simp only [mailtoWordBox]
  by_cases h1 : (pyStrip wd.text.data).isEmpty
  · have ht : pyStrip wd.text.data = [] := List.isEmpty_iff.mp h1
    rw [if_pos h1, ht, fuzzyMatch_nil]
    simp
  · rw [if_neg h1]
    by_cases h2 : wd.top < (5 * h) / 10
    · rw [if_pos h2]
      have h2n : ¬((5 * h) / 10 ≤ wd.top) := by omega
      simp [h2n]
    · rw [if_neg h2]
      have h2y : (5 * h) / 10 ≤ wd.top := by omega
      by_cases h3 : fuzzyMatch (pyStrip wd.text.data) mailtoKeys 3 4
      · simp [h2y, h3]
      · simp [h2y, h3]

/-- The matched-box list of `_find_mailto_block` is the map of the box
constructor over the filter of the spec over the word list. -/
theorem filterMap_mailtoWordBox (h : Nat) :
    ∀ words : List OcrWord,
      words.filterMap (mailtoWordBox h) =
        (words.filter (fun wd => decide ((5 * h) / 10 ≤ wd.top) &&
            fuzzyMatch (pyStrip wd.text.data) mailtoKeys 3 4)).map
          (fun wd =>
            BBox.mk wd.left wd.top (wd.left + wd.width) (wd.top + wd.height))
  | [] => rfl
  | a :: as => by
    rw [List.filterMap_cons, List.filter_cons, mailtoWordBox_eq_ite]
    by_cases hc : (decide ((5 * h) / 10 ≤ a.top) &&
        fuzzyMatch (pyStrip a.text.data) mailtoKeys 3 4) = true
    · rw [if_pos hc, if_pos hc]
      simp only [List.map_cons]
      rw [filterMap_mailtoWordBox h as]
    · rw [if_neg hc, if_neg hc]
      exact filterMap_mailtoWordBox h as

/-- Claim C4: for every word list and page size, `_find_mailto_block`
computes exactly the envelope of the spec: it considers only words whose top is
at least `50%` of the page height, keeps the fuzzy matches against the
mail-to keyword set at `min_ratio = 0.75`, and expands the envelope of the
matched boxes with the fixed paddings and the `10% H` minimum height
(extending `bottom`, clamped to the page). -/
theorem find_mailto_matches_spec_envelope (words : List OcrWord) (w h : Nat) :
    findMailtoBlock (Except.ok words) w h = specMailtoEnvelope words w h := by
  cases words with
  | nil => rfl
  | cons a as =>
    simp only [findMailtoBlock, specMailtoEnvelope, List.isEmpty_cons,
      Bool.false_eq_true, if_false]
    rw [filterMap_mailtoWordBox]

end AnchoredPdfCropperService

namespace AnchoredPdfCropperService

/-- Bounds on every box `_find_mailto_block` returns, for OCR words lying
inside a page of height at least 100: the vertical edges are ordered and
clamped, and both horizontal edges are clamped to `[45% W, W]` and `[0, W]`
respectively (the horizontal ORDER `x1 < x2` is not guaranteed). -/
theorem findMailto_box_bounds {words : List OcrWord} {w h : Nat} {box : BBox}
    (hm : findMailtoBlock (Except.ok words) w h = some box)
    (hin : ∀ wd ∈ words, wd.left + wd.width ≤ w ∧ wd.top + wd.height ≤ h)
    (hh : 100 ≤ h) :
    box.y1 < box.y2 ∧ box.y2 ≤ h ∧ (45 * w) / 100 ≤ box.x1 ∧ box.x1 ≤ w ∧
      box.x2 ≤ w := by
  have hprops : ∀ p ∈ words.filterMap (mailtoWordBox h),
      (5 * h) / 10 ≤ p.y1 ∧ p.y1 ≤ p.y2 ∧ p.x1 ≤ p.x2 ∧ p.x2 ≤ w ∧
        p.y2 ≤ h := by
    intro p hp
    obtain ⟨wd, hwd, hws⟩ := List.mem_filterMap.mp hp
    obtain ⟨hy, hpe⟩ := mailtoWordBox_eq_some hws
    obtain ⟨hx1, hx2⟩ := hin wd hwd
    subst hpe
    exact ⟨hy, Nat.le_add_right _ _, Nat.le_add_right _ _, hx1, hx2⟩
  obtain ⟨bx1, by1, bx2, by2⟩ := box
  cases hfm : words.filterMap (mailtoWordBox h) with
  | nil => simp [findMailtoBlock, hfm] at hm
  | cons b bs =>
    have hwne : words ≠ [] := by
      intro he
      subst he
      simp at hfm
    have hweF : words.isEmpty = false := by
      simpa [List.isEmpty_eq_false] using hwne
    have hAll : ∀ p ∈ b :: bs,
        (5 * h) / 10 ≤ p.y1 ∧ p.y1 ≤ p.y2 ∧ p.x1 ≤ p.x2 ∧ p.x2 ≤ w ∧
          p.y2 ≤ h := hfm ▸ hprops
    have hb := hAll b (List.mem_cons_self b bs)
    have f1 : (5 * h) / 10 ≤ bs.foldl (fun m x => min m x.y1) b.y1 :=
      le_foldl_min (fun x => x.y1) bs b.y1 ((5 * h) / 10) hb.1
        (fun x hx => (hAll x (List.mem_cons_of_mem b hx)).1)
    have f2 : bs.foldl (fun m x => min m x.y1) b.y1 ≤ b.y1 :=
      foldl_min_le_init (fun x => x.y1) bs b.y1
    have f3 : b.y2 ≤ bs.foldl (fun m x => max m x.y2) b.y2 :=
      le_foldl_max (fun x => x.y2) bs b.y2
    have f4 : bs.foldl (fun m x => max m x.y2) b.y2 ≤ h :=
      foldl_max_le (fun x => x.y2) bs b.y2 h hb.2.2.2.2
        (fun x hx => (hAll x (List.mem_cons_of_mem b hx)).2.2.2.2)
    have f5 : bs.foldl (fun m x => min m x.x1) b.x1 ≤ b.x1 :=
      foldl_min_le_init (fun x => x.x1) bs b.x1
    have hby : b.y1 ≤ b.y2 := hb.2.1
    have hbx : b.x1 ≤ b.x2 := hb.2.2.1
    have hbxw : b.x2 ≤ w := hb.2.2.2.1
    have hbyh : b.y2 ≤ h := hb.2.2.2.2
    simp only [findMailtoBlock, hweF, Bool.false_eq_true, if_false, hfm] at hm
    split_ifs at hm with hcond <;>
      · simp only [Option.some.injEq, BBox.mk.injEq] at hm
        obtain ⟨e1, e2, e3, e4⟩ := hm
        refine ⟨?_, ?_, ?_, ?_, ?_⟩ <;> simp only [BBox.mk.injEq] <;> omega

/-- Validity of the primary-path crop box: whenever the left edge of the
mail-to box is within the page and its bottom edge is positive, the computed crop
box satisfies the full ordering-and-clamping invariant (for pages at least
`100 × 100`). -/
theorem cropFromMailto_valid (mb : BBox) (ht : Option Nat) (w h : Nat)
    (hx1 : mb.x1 ≤ w) (hy2 : 1 ≤ mb.y2) (hw : 100 ≤ w) (hh : 100 ≤ h) :
    (cropFromMailto mb ht w h).x1 < (cropFromMailto mb ht w h).x2 ∧
      (cropFromMailto mb ht w h).x2 ≤ w ∧
      (cropFromMailto mb ht w h).y1 < (cropFromMailto mb ht w h).y2 ∧
      (cropFromMailto mb ht w h).y2 ≤ h := by
  cases ht <;> simp only [cropFromMailto] <;> split_ifs <;> simp <;> omega

end AnchoredPdfCropperService

namespace AnchoredPdfCropperService

/-- Claim C1 (amended): for pages of size at least `100 × 100` whose OCR
word boxes lie inside the page, every mail-to box `_find_mailto_block`
returns satisfies `0 ≤ y1 < y2 ≤ H` and has both horizontal edges clamped
(`45% W ≤ x1 ≤ W`, `0 ≤ x2 ≤ W`) — but `x1 < x2` can fail — and whenever a
mail-to box is found the crop box `crop_pdfs` computes for that page
satisfies the full invariant `0 ≤ x1 < x2 ≤ W` and `0 ≤ y1 < y2 ≤ H`
(coordinates are naturals, so the lower bounds `0 ≤ _` are automatic). -/
theorem mailto_and_crop_boxes_clamped (ocr : Except Unit (List OcrWord))
    (w h : Nat) (box : BBox) (hw : 100 ≤ w) (hh : 100 ≤ h)
    (hin : ocrInPage ocr w h = true)
    (hm : findMailtoBlock ocr w h = some box) :
    box.y1 < box.y2 ∧ box.y2 ≤ h ∧ (45 * w) / 100 ≤ box.x1 ∧ box.x1 ≤ w ∧
      box.x2 ≤ w ∧
      (cropBoxForPage ocr w h).x1 < (cropBoxForPage ocr w h).x2 ∧
      (cropBoxForPage ocr w h).x2 ≤ w ∧
      (cropBoxForPage ocr w h).y1 < (cropBoxForPage ocr w h).y2 ∧
      (cropBoxForPage ocr w h).y2 ≤ h := by
  cases ocr with
  | error e => simp [findMailtoBlock] at hm
  | ok words =>
    have hin2 : ∀ wd ∈ words,
        wd.left + wd.width ≤ w ∧ wd.top + wd.height ≤ h := by
      simpa [ocrInPage] using hin
    obtain ⟨hb1, hb2, hb3, hb4, hb5⟩ := findMailto_box_bounds hm hin2 hh
    have hcv := cropFromMailto_valid box (findHeaderTop (Except.ok words) h)
      w h hb4 (by omega) hw hh
    have hcb : cropBoxForPage (Except.ok words) w h =
        cropFromMailto box (findHeaderTop (Except.ok words) h) w h := by
      simp [cropBoxForPage, hm]
    rw [hcb]
    exact ⟨hb1, hb2, hb3, hb4, hb5, hcv.1, hcv.2.1, hcv.2.2.1, hcv.2.2.2⟩

/-- Witness for C1 at the synthetic one-word page `1000 × 1200`. -/
theorem mailto_and_crop_boxes_clamped_witness :
    100 ≤ 1000 ∧ 100 ≤ 1200 ∧
      ocrInPage (Except.ok [⟨"Mail to", 500, 800, 100, 20⟩]) 1000 1200 = true ∧
      findMailtoBlock (Except.ok [⟨"Mail to", 500, 800, 100, 20⟩]) 1000 1200 =
        some (BBox.mk 480 788 660 908) ∧
      ((BBox.mk 480 788 660 908).y1 < (BBox.mk 480 788 660 908).y2 ∧
        (BBox.mk 480 788 660 908).y2 ≤ 1200 ∧
        (45 * 1000) / 100 ≤ (BBox.mk 480 788 660 908).x1 ∧
        (BBox.mk 480 788 660 908).x1 ≤ 1000 ∧
        (BBox.mk 480 788 660 908).x2 ≤ 1000 ∧
        (cropBoxForPage (Except.ok [⟨"Mail to", 500, 800, 100, 20⟩]) 1000
              1200).x1 <
          (cropBoxForPage (Except.ok [⟨"Mail to", 500, 800, 100, 20⟩]) 1000
              1200).x2 ∧
        (cropBoxForPage (Except.ok [⟨"Mail to", 500, 800, 100, 20⟩]) 1000
              1200).x2 ≤ 1000 ∧
        (cropBoxForPage (Except.ok [⟨"Mail to", 500, 800, 100, 20⟩]) 1000
              1200).y1 <
          (cropBoxForPage (Except.ok [⟨"Mail to", 500, 800, 100, 20⟩]) 1000
              1200).y2 ∧
        (cropBoxForPage (Except.ok [⟨"Mail to", 500, 800, 100, 20⟩]) 1000
              1200).y2 ≤ 1200) :=
  ⟨by decide, by decide, by decide, by decide,
    mailto_and_crop_boxes_clamped (Except.ok [⟨"Mail to", 500, 800, 100, 20⟩])
      1000 1200 (BBox.mk 480 788 660 908) (by decide) (by decide) (by decide)
      (by decide)⟩

/-- Counterexample for C1 as stated: the word `"mail to"` with the in-page
box `(0, 800, 100, 810)` on a `1000 × 1000` page yields the mail-to box
`(450, 790, 160, 890)` with `x1 = 450 > x2 = 160` — the `45% W` left floor
is applied without re-clamping against the right edge, so `x1 < x2` is
violated rather than clamped. -/
theorem mailto_box_x_order_cex :
    findMailtoBlock (Except.ok [⟨"mail to", 0, 800, 100, 10⟩]) 1000 1000 =
        some (BBox.mk 450 790 160 890) ∧
      ¬((450 : Nat) < 160) := by decide

/-- Claim C7 (amended): `crop_pdfs` has no geometry-validity check and no
full-page fallback — the computed box is handed to the crop unchanged —
but for pages of size at least `100 × 100` whose OCR words lie inside the
page, the computed crop box always satisfies `x1 < x2` and `y1 < y2` (with
`x2 ≤ W`, `y2 ≤ H`), so the invalid-geometry defect cannot arise there. -/
theorem crop_box_geometry_valid_inpage (p : Page) (hw : 100 ≤ p.w)
    (hh : 100 ≤ p.h) (hin : ocrInPage p.ocr p.w p.h = true) :
    (pageBox p).x1 < (pageBox p).x2 ∧ (pageBox p).x2 ≤ p.w ∧
      (pageBox p).y1 < (pageBox p).y2 ∧ (pageBox p).y2 ≤ p.h := by
  obtain ⟨w, h, ocr⟩ := p
  simp only [pageBox] at *
  cases hm : findMailtoBlock ocr w h with
  | none =>
    have hpb : cropBoxForPage ocr w h =
        BBox.mk ((25 * w) / 100) ((12 * h) / 100) w ((92 * h) / 100) := by
      simp [cropBoxForPage, hm]
    rw [hpb]
    refine ⟨?_, ?_, ?_, ?_⟩ <;> simp <;> omega
  | some mb =>
    cases ocr with
    | error e => simp [findMailtoBlock] at hm
    | ok words =>
      have hin2 : ∀ wd ∈ words,
          wd.left + wd.width ≤ w ∧ wd.top + wd.height ≤ h := by
        simpa [ocrInPage] using hin
      obtain ⟨hb1, hb2, hb3, hb4, hb5⟩ := findMailto_box_bounds hm hin2 hh
      have hcv := cropFromMailto_valid mb (findHeaderTop (Except.ok words) h)
        w h hb4 (by omega) hw hh
      have hpb : cropBoxForPage (Except.ok words) w h =
          cropFromMailto mb (findHeaderTop (Except.ok words) h) w h := by
        simp [cropBoxForPage, hm]
      rw [hpb]
      exact hcv

/-- Witness for C7 at a `1000 × 1000` page with one in-page mail-to word. -/
theorem crop_box_geometry_valid_inpage_witness :
    100 ≤ (1000 : Nat) ∧ 100 ≤ (1000 : Nat) ∧
      ocrInPage (Except.ok [⟨"Mail to", 500, 800, 100, 20⟩]) 1000 1000 = true ∧
      ((pageBox ⟨1000, 1000, Except.ok [⟨"Mail to", 500, 800, 100, 20⟩]⟩).x1 <
          (pageBox ⟨1000, 1000, Except.ok [⟨"Mail to", 500, 800, 100, 20⟩]⟩).x2 ∧
        (pageBox ⟨1000, 1000, Except.ok [⟨"Mail to", 500, 800, 100, 20⟩]⟩).x2 ≤
          1000 ∧
        (pageBox ⟨1000, 1000, Except.ok [⟨"Mail to", 500, 800, 100, 20⟩]⟩).y1 <
          (pageBox ⟨1000, 1000, Except.ok [⟨"Mail to", 500, 800, 100, 20⟩]⟩).y2 ∧
        (pageBox ⟨1000, 1000, Except.ok [⟨"Mail to", 500, 800, 100, 20⟩]⟩).y2 ≤
          1000) :=
  ⟨by decide, by decide, by decide,
    crop_box_geometry_valid_inpage
      ⟨1000, 1000, Except.ok [⟨"Mail to", 500, 800, 100, 20⟩]⟩ (by decide)
      (by decide) (by decide)⟩

/-- Counterexample for C7 as stated: with an out-of-page OCR coordinate
(`left = 5000` on a `1000 × 1000` page) the computed crop box
`(4680, 140, 1000, 894)` violates `x1 < x2`, yet `crop_pdfs` uses exactly
this box for the page — it is not replaced by the full-page box
`(0, 0, W, H)`, no defect is recorded, and no fallback exists in the
code. -/
theorem invalid_crop_box_used_cex :
    pageBox ⟨1000, 1000, Except.ok [⟨"mail to", 5000, 800, 10, 10⟩]⟩ =
        BBox.mk 4680 140 1000 894 ∧
      ¬((4680 : Nat) < 1000) ∧
      BBox.mk 4680 140 1000 894 ≠ BBox.mk 0 0 1000 1000 := by decide

/-- Claim C8: when the OCR engine raises (`.error ()`) or recognizes no
words (`.ok []`), `_find_header_top` and `_find_mailto_block` return `None`
instead of raising, the crop box for that page is exactly the fallback box,
and the crop boxes of the batch are computed page by page: pages that agree
at an index produce the same box there, so an OCR failure on one page never
changes the output of another page. -/
theorem ocr_failure_page_isolated (ocr : Except Unit (List OcrWord))
    (w h : Nat) (hocr : ocr = Except.error () ∨ ocr = Except.ok [])
    (pages pages2 : List Page) (j : Nat)
    (hj : pages.get? j = pages2.get? j) :
    findHeaderTop ocr h = none ∧ findMailtoBlock ocr w h = none ∧
      cropBoxForPage ocr w h =
        BBox.mk ((25 * w) / 100) ((12 * h) / 100) w ((92 * h) / 100) ∧
      (processPages pages).get? j = (processPages pages2).get? j := by
  refine ⟨?_, ?_, ?_, ?_⟩
  · rcases hocr with rfl | rfl <;> rfl
  · rcases hocr with rfl | rfl <;> rfl
  · rcases hocr with rfl | rfl <;> rfl
  · simp only [processPages, List.get?_map, hj]

/-- Witness for C8: a two-page batch where OCR raised on the first page; the
box of the second page is unchanged when the first page is replaced. -/
theorem ocr_failure_page_isolated_witness :
    ((Except.error () : Except Unit (List OcrWord)) = Except.error () ∨
        (Except.error () : Except Unit (List OcrWord)) = Except.ok []) ∧
      ([(⟨300, 400, Except.error ()⟩ : Page),
          ⟨1000, 1200, Except.ok [⟨"Mail to", 500, 800, 100, 20⟩]⟩].get? 1 =
        [(⟨300, 400, Except.ok []⟩ : Page),
          ⟨1000, 1200, Except.ok [⟨"Mail to", 500, 800, 100, 20⟩]⟩].get? 1) ∧
      (findHeaderTop (Except.error ()) 400 = none ∧
        findMailtoBlock (Except.error ()) 300 400 = none ∧
        cropBoxForPage (Except.error ()) 300 400 =
          BBox.mk ((25 * 300) / 100) ((12 * 400) / 100) 300
            ((92 * 400) / 100) ∧
        (processPages [⟨300, 400, Except.error ()⟩,
            ⟨1000, 1200, Except.ok [⟨"Mail to", 500, 800, 100, 20⟩]⟩]).get? 1 =
          (processPages [⟨300, 400, Except.ok []⟩,
            ⟨1000, 1200, Except.ok [⟨"Mail to", 500, 800, 100, 20⟩]⟩]).get? 1) :=
  ⟨Or.inl rfl, rfl,
    ocr_failure_page_isolated (Except.error ()) 300 400 (Or.inl rfl)
      [⟨300, 400, Except.error ()⟩,
        ⟨1000, 1200, Except.ok [⟨"Mail to", 500, 800, 100, 20⟩]⟩]
      [⟨300, 400, Except.ok []⟩,
        ⟨1000, 1200, Except.ok [⟨"Mail to", 500, 800, 100, 20⟩]⟩] 1 rfl⟩

end AnchoredPdfCropperService
